import Mathlib

/-
Verification of the Generalized Gamma model engine
(`lifelines/fitters/generalized_gamma_fitter.py`).

The model's mathematical layer is embedded over the real numbers: float
arithmetic is idealized as exact real arithmetic, and the special functions
imported from external packages (`autograd_gamma`, `scipy.special`), which are
not part of this repository, are modelled from the spec's glossary as the
regularized incomplete gamma functions and their inverses.

A second, small embedding over an IEEE-style value type (`FloatVal`) captures
the nan/inf propagation behaviour of numpy arithmetic; it is used for the
error-handling claims about `lambda == 0`, which are invisible over ℝ.
-/

open Set MeasureTheory Filter Topology

/-- The integrand of Euler's Gamma integral, `exp (-t) * t ^ (k - 1)`; both the
complete and the incomplete gamma functions integrate it. -/
noncomputable def gammaIntegrand (k t : ℝ) : ℝ := Real.exp (-t) * t ^ (k - 1)

/-- Lower incomplete gamma function: the gamma integrand integrated from 0 to x. -/
noncomputable def lowerIncGamma (k x : ℝ) : ℝ := ∫ t in Ioc (0 : ℝ) x, gammaIntegrand k t

/-- Upper incomplete gamma function: the gamma integrand integrated from x to infinity. -/
noncomputable def upperIncGamma (k x : ℝ) : ℝ := ∫ t in Ioi x, gammaIntegrand k t

/-- Modelled from the spec: `gammainc` imported from the external
`autograd_gamma` package (absent from src), the regularized lower incomplete
gamma function — per the glossary, the normalized integral of the gamma density
from 0 to x, with values in [0, 1]. -/
noncomputable def gammainc (k x : ℝ) : ℝ := lowerIncGamma k x / Real.Gamma k

/-- Modelled from the spec: `gammaincc` from `autograd_gamma` (absent from src),
the regularized upper incomplete gamma function — the normalized integral of the
gamma density from x to infinity. -/
noncomputable def gammaincc (k x : ℝ) : ℝ := upperIncGamma k x / Real.Gamma k

/-- Modelled from the spec: `gammaincln` from `autograd_gamma` (absent from
src), the log of the regularized lower incomplete gamma function (the spec's
"log-incomplete-gamma variant"; in exact arithmetic its value is the log of
`gammainc`, the library merely computes it stably). -/
noncomputable def gammaincln (k x : ℝ) : ℝ := Real.log (gammainc k x)

/-- Modelled from the spec: `gammainccln` from `autograd_gamma` (absent from
src), the log of the regularized upper incomplete gamma function. -/
noncomputable def gammainccln (k x : ℝ) : ℝ := Real.log (gammaincc k x)

/-- Modelled from the spec: `gammaln` from `autograd_gamma` (absent from src),
the log of the Gamma function. -/
noncomputable def gammaln (k : ℝ) : ℝ := Real.log (Real.Gamma k)

/-- Modelled from the spec: `safe_exp` from `lifelines.utils.safe_exp` (absent
from src) is a "bounded-exponential helper" that "clamps extreme exponents
rather than producing inf/nan", i.e. it clips the exponent purely to keep the
*floating-point* result finite. In the exact real semantics used in this layer
no overflow exists and the clamp never alters the mathematical value, so the
idealized bounded exponential is the real exponential itself. (The float-level
clipping is modelled explicitly in `FloatVal.safeExp` below.) -/
noncomputable def safe_exp (x : ℝ) : ℝ := Real.exp x

/-- The model's parameter vector `(mu_, ln_sigma_, lambda_)`. -/
structure Params where
  mu_ : ℝ
  ln_sigma_ : ℝ
  lambda_ : ℝ

/-- Embedding of `GeneralizedGammaFitter._survival_function`. -/
noncomputable def _survival_function (params : Params) (times : ℝ) : ℝ :=
  let sigma_ := safe_exp params.ln_sigma_
  let Z := (Real.log times - params.mu_) / sigma_
  if params.lambda_ > 0 then
    gammaincc (1 / params.lambda_ ^ 2)
      (safe_exp (params.lambda_ * Z - 2 * Real.log params.lambda_))
  else
    gammainc (1 / params.lambda_ ^ 2)
      (safe_exp (params.lambda_ * Z - 2 * Real.log (-params.lambda_)))

/-- Embedding of `GeneralizedGammaFitter._cumulative_hazard`. -/
noncomputable def _cumulative_hazard (params : Params) (times : ℝ) : ℝ :=
  let sigma_ := safe_exp params.ln_sigma_
  let Z := (Real.log times - params.mu_) / sigma_
  let ilambda_2 := 1 / params.lambda_ ^ 2
  if params.lambda_ > 0 then
    -gammainccln ilambda_2 (safe_exp (params.lambda_ * Z - 2 * Real.log params.lambda_))
  else
    -gammaincln ilambda_2 (safe_exp (params.lambda_ * Z - 2 * Real.log (-params.lambda_)))

/-- Embedding of `GeneralizedGammaFitter._log_1m_sf`. -/
noncomputable def _log_1m_sf (params : Params) (times : ℝ) : ℝ :=
  let sigma_ := safe_exp params.ln_sigma_
  let Z := (Real.log times - params.mu_) / sigma_
  if params.lambda_ > 0 then
    gammaincln (1 / params.lambda_ ^ 2)
      (safe_exp (params.lambda_ * Z - 2 * Real.log params.lambda_))
  else
    gammainccln (1 / params.lambda_ ^ 2)
      (safe_exp (params.lambda_ * Z - 2 * Real.log (-params.lambda_)))

/-- Modelled from the spec: `scipy.special.gammaincinv` (absent from src), the
inverse of the regularized lower incomplete gamma function in its second
argument: it returns the positive x with `gammainc k x = p` when one exists. -/
noncomputable def gammaincinv (k p : ℝ) : ℝ :=
  haveI := Classical.propDecidable (∃ x, 0 < x ∧ gammainc k x = p)
  if h : ∃ x, 0 < x ∧ gammainc k x = p then h.choose else 0

/-- Modelled from the spec: `scipy.special.gammainccinv` (absent from src), the
inverse of the regularized upper incomplete gamma function in its second
argument: it returns the positive x with `gammaincc k x = p` when one exists. -/
noncomputable def gammainccinv (k p : ℝ) : ℝ :=
  haveI := Classical.propDecidable (∃ x, 0 < x ∧ gammaincc k x = p)
  if h : ∃ x, 0 < x ∧ gammaincc k x = p then h.choose else 0

/-- Embedding of `GeneralizedGammaFitter.percentile`. -/
noncomputable def percentile (params : Params) (p : ℝ) : ℝ :=
  let lambda_ := params.lambda_
  let sigma_ := Real.exp params.ln_sigma_
  if lambda_ > 0 then
    Real.exp (sigma_ * Real.log (gammainccinv (1 / lambda_ ^ 2) p * lambda_ ^ 2) / lambda_) *
      Real.exp params.mu_
  else
    Real.exp (sigma_ * Real.log (gammaincinv (1 / lambda_ ^ 2) p * lambda_ ^ 2) / lambda_) *
      Real.exp params.mu_

/-- The censoring variant tag (`lifelines.utils.CensoringType`), deciding which
slice of the time data the initializer reads. -/
inductive CensoringType
  | rightCensoring
  | leftCensoring
  | intervalCensoring

/-- numpy `ndarray.mean`: arithmetic mean. -/
noncomputable def listMean (xs : List ℝ) : ℝ := xs.sum / xs.length

/-- numpy `ndarray.std`: population standard deviation (ddof = 0). -/
noncomputable def listStd (xs : List ℝ) : ℝ :=
  Real.sqrt ((xs.map fun x => (x - listMean xs) ^ 2).sum / xs.length)

/-- Embedding of `GeneralizedGammaFitter._create_initial_point`: `Ts0` and
`Ts1` are the first and second time arrays of the tuple `Ts` (right-censoring
uses `Ts[0]`, left-censoring `Ts[1]`, interval-censoring `Ts[1] - Ts[0]`). -/
noncomputable def _create_initial_point (ct : CensoringType) (Ts0 Ts1 : List ℝ) : ℝ × ℝ × ℝ :=
  let log_data :=
    match ct with
    | .rightCensoring => Ts0.map Real.log
    | .leftCensoring => Ts1.map Real.log
    | .intervalCensoring => (List.zipWith (fun u l => u - l) Ts1 Ts0).map Real.log
  (listMean log_data, Real.log (listStd log_data), 0.1)

/-- Embedding of the class attribute `_fitted_parameter_names`. -/
def _fitted_parameter_names : List String := ["mu_", "ln_sigma_", "lambda_"]

/-- Embedding of the class attribute `_bounds`; `none` is Python's `None`,
meaning the side is unbounded. -/
def _bounds : List (Option ℝ × Option ℝ) := [(none, none), (none, none), (none, none)]

/-- Embedding of the class attribute `_compare_to_values`. -/
def _compare_to_values : List ℝ := [0.0, 0.0, 1.0]

/-- Spec formulation of the survival function, written from the spec's words:
`sigma = exp(ln_sigma)`, `Z = (log(times) - mu) / sigma`, `k = 1 / lambda^2`;
for `lambda > 0` the upper, for `lambda < 0` the lower regularized incomplete
gamma of `exp(lambda*Z - 2*log(|lambda|))`. Kept separate from
`_survival_function` for the refinement comparison. -/
noncomputable def survivalSpec (params : Params) (times : ℝ) : ℝ :=
  let sigma := Real.exp params.ln_sigma_
  let Z := (Real.log times - params.mu_) / sigma
  let k := 1 / params.lambda_ ^ 2
  if params.lambda_ > 0 then
    gammaincc k (Real.exp (params.lambda_ * Z - 2 * Real.log params.lambda_))
  else
    gammainc k (Real.exp (params.lambda_ * Z - 2 * Real.log (-params.lambda_)))

/-- The spec's definition of `log_data` in the initialization heuristic:
log of the times under right-censoring, log of the upper array under
left-censoring, log of the elementwise difference upper - lower under
interval-censoring. -/
noncomputable def specLogData : CensoringType → List ℝ → List ℝ → List ℝ
  | .rightCensoring, times, _ => times.map Real.log
  | .leftCensoring, _, upper => upper.map Real.log
  | .intervalCensoring, lower, upper =>
      (List.zipWith (fun u l => u - l) upper lower).map Real.log

lemma gammaIntegrand_pos {k t : ℝ} (ht : 0 < t) : 0 < gammaIntegrand k t :=
  mul_pos (Real.exp_pos _) (Real.rpow_pos_of_pos ht _)

lemma integrableOn_gammaIntegrand {k : ℝ} (hk : 0 < k) {s : Set ℝ} (hs : s ⊆ Ioi 0) :
    IntegrableOn (gammaIntegrand k) s :=
  (Real.GammaIntegral_convergent hk).mono_set hs

lemma intervalIntegrable_gammaIntegrand {k x : ℝ} (hk : 0 < k) (hx : 0 ≤ x) :
    IntervalIntegrable (gammaIntegrand k) volume 0 x := by
  rw [intervalIntegrable_iff_integrableOn_Ioc_of_le hx]
  exact integrableOn_gammaIntegrand hk Ioc_subset_Ioi_self

lemma lowerIncGamma_eq_intervalIntegral {k x : ℝ} (hx : 0 ≤ x) :
    lowerIncGamma k x = ∫ t in (0:ℝ)..x, gammaIntegrand k t := by
  rw [intervalIntegral.integral_of_le hx, lowerIncGamma]

lemma lowerIncGamma_pos {k x : ℝ} (hk : 0 < k) (hx : 0 < x) : 0 < lowerIncGamma k x := by
  rw [lowerIncGamma_eq_intervalIntegral hx.le]
  exact intervalIntegral.intervalIntegral_pos_of_pos_on
    (intervalIntegrable_gammaIntegrand hk hx.le) (fun t ht => gammaIntegrand_pos ht.1) hx

lemma lowerIncGamma_nonneg (k x : ℝ) : 0 ≤ lowerIncGamma k x :=
  setIntegral_nonneg measurableSet_Ioc fun t ht => (gammaIntegrand_pos ht.1).le

lemma lowerIncGamma_add_upperIncGamma {k x : ℝ} (hk : 0 < k) (hx : 0 < x) :
    lowerIncGamma k x + upperIncGamma k x = Real.Gamma k := by
  have hG : Real.Gamma k = ∫ t in Ioi (0:ℝ), gammaIntegrand k t := Real.Gamma_eq_integral hk
  rw [hG, ← Ioc_union_Ioi_eq_Ioi hx.le,
    setIntegral_union Ioc_disjoint_Ioi_same measurableSet_Ioi
      (integrableOn_gammaIntegrand hk Ioc_subset_Ioi_self)
      (integrableOn_gammaIntegrand hk (Ioi_subset_Ioi hx.le))]
  rfl

lemma upperIncGamma_pos {k x : ℝ} (hk : 0 < k) (hx : 0 < x) : 0 < upperIncGamma k x := by
  have hsub : Ioc x (x + 1) ⊆ Ioi x := Ioc_subset_Ioi_self
  have h1 : 0 < ∫ t in Ioc x (x + 1), gammaIntegrand k t := by
    rw [← intervalIntegral.integral_of_le (by linarith : x ≤ x + 1)]
    refine intervalIntegral.intervalIntegral_pos_of_pos_on ?_
      (fun t ht => gammaIntegrand_pos (hx.trans ht.1)) (by linarith)
    rw [intervalIntegrable_iff_integrableOn_Ioc_of_le (by linarith : x ≤ x + 1)]
    exact integrableOn_gammaIntegrand hk fun t ht => hx.trans (hsub ht)
  refine h1.trans_le (setIntegral_mono_set
    (integrableOn_gammaIntegrand hk (Ioi_subset_Ioi hx.le)) ?_ hsub.eventuallyLE)
  exact (ae_restrict_iff' measurableSet_Ioi).mpr
    (Filter.Eventually.of_forall fun t ht => (gammaIntegrand_pos (hx.trans ht)).le)

lemma upperIncGamma_nonneg {k x : ℝ} (hx : 0 < x) : 0 ≤ upperIncGamma k x :=
  setIntegral_nonneg measurableSet_Ioi fun t ht => (gammaIntegrand_pos (hx.trans ht)).le

lemma lowerIncGamma_mono {k x y : ℝ} (hk : 0 < k) (hxy : x ≤ y) :
    lowerIncGamma k x ≤ lowerIncGamma k y := by
  refine setIntegral_mono_set (integrableOn_gammaIntegrand hk Ioc_subset_Ioi_self) ?_
    (Ioc_subset_Ioc_right hxy).eventuallyLE
  exact (ae_restrict_iff' measurableSet_Ioc).mpr
    (Filter.Eventually.of_forall fun t ht => (gammaIntegrand_pos ht.1).le)

lemma lowerIncGamma_lt_Gamma {k x : ℝ} (hk : 0 < k) (hx : 0 < x) :
    lowerIncGamma k x < Real.Gamma k := by
  have h := lowerIncGamma_add_upperIncGamma hk hx
  have h2 := upperIncGamma_pos hk hx
  linarith

lemma continuousOn_lowerIncGamma {k b : ℝ} (hk : 0 < k) :
    ContinuousOn (fun x => lowerIncGamma k x) (Icc (0:ℝ) b) := by
  have : IntegrableOn (gammaIntegrand k) (Icc (0:ℝ) b) := by
    rw [integrableOn_Icc_iff_integrableOn_Ioc]
    exact integrableOn_gammaIntegrand hk Ioc_subset_Ioi_self
  simpa only [lowerIncGamma] using intervalIntegral.continuousOn_primitive this

lemma tendsto_lowerIncGamma_nat {k : ℝ} (hk : 0 < k) :
    Tendsto (fun n : ℕ => lowerIncGamma k n) atTop (𝓝 (Real.Gamma k)) := by
  have hU : ⋃ n : ℕ, Ioc (0:ℝ) n = Ioi 0 := by
    ext t
    simp only [mem_iUnion, mem_Ioc, mem_Ioi]
    constructor
    · rintro ⟨n, h1, _⟩
      exact h1
    · intro ht
      obtain ⟨n, hn⟩ := exists_nat_gt t
      exact ⟨n, ht, hn.le⟩
  have hmono : Monotone fun n : ℕ => Ioc (0:ℝ) n :=
    fun m n hmn => Ioc_subset_Ioc_right (Nat.cast_le.mpr hmn)
  have hint : IntegrableOn (gammaIntegrand k) (⋃ n : ℕ, Ioc (0:ℝ) n) := by
    rw [hU]
    exact integrableOn_gammaIntegrand hk (subset_refl _)
  have h := MeasureTheory.tendsto_setIntegral_of_monotone
    (fun n : ℕ => measurableSet_Ioc) hmono hint
  rw [hU] at h
  have h2 : (∫ t in Ioi (0:ℝ), gammaIntegrand k t) = Real.Gamma k :=
    (Real.Gamma_eq_integral hk).symm
  rw [h2] at h
  exact h

lemma lowerIncGamma_zero (k : ℝ) : lowerIncGamma k 0 = 0 := by
  simp [lowerIncGamma]

lemma exists_lowerIncGamma_eq {k c : ℝ} (hk : 0 < k) (hc0 : 0 < c)
    (hcG : c < Real.Gamma k) : ∃ x, 0 < x ∧ lowerIncGamma k x = c := by
  obtain ⟨N, hN⟩ := ((tendsto_lowerIncGamma_nat hk).eventually (eventually_gt_nhds hcG)).exists
  have hmem : c ∈ Ioo (lowerIncGamma k 0) (lowerIncGamma k (N : ℝ)) := by
    rw [lowerIncGamma_zero]
    exact ⟨hc0, hN⟩
  obtain ⟨x, hx, hfx⟩ :=
    intermediate_value_Ioo (Nat.cast_nonneg N) (continuousOn_lowerIncGamma hk) hmem
  exact ⟨x, hx.1, hfx⟩

lemma gammainc_pos {k x : ℝ} (hk : 0 < k) (hx : 0 < x) : 0 < gammainc k x :=
  div_pos (lowerIncGamma_pos hk hx) (Real.Gamma_pos_of_pos hk)

lemma gammainc_nonneg {k x : ℝ} (hk : 0 < k) : 0 ≤ gammainc k x :=
  div_nonneg (lowerIncGamma_nonneg k x) (Real.Gamma_pos_of_pos hk).le

lemma gammainc_lt_one {k x : ℝ} (hk : 0 < k) (hx : 0 < x) : gammainc k x < 1 :=
  (div_lt_one (Real.Gamma_pos_of_pos hk)).mpr (lowerIncGamma_lt_Gamma hk hx)

lemma gammaincc_pos {k x : ℝ} (hk : 0 < k) (hx : 0 < x) : 0 < gammaincc k x :=
  div_pos (upperIncGamma_pos hk hx) (Real.Gamma_pos_of_pos hk)

lemma gammaincc_nonneg {k x : ℝ} (hk : 0 < k) (hx : 0 < x) : 0 ≤ gammaincc k x :=
  div_nonneg (upperIncGamma_nonneg hx) (Real.Gamma_pos_of_pos hk).le

lemma gammainc_add_gammaincc {k x : ℝ} (hk : 0 < k) (hx : 0 < x) :
    gammainc k x + gammaincc k x = 1 := by
  rw [gammainc, gammaincc, div_add_div_same, lowerIncGamma_add_upperIncGamma hk hx,
    div_self (Real.Gamma_pos_of_pos hk).ne']

lemma gammainc_mono {k x y : ℝ} (hk : 0 < k) (hxy : x ≤ y) :
    gammainc k x ≤ gammainc k y :=
  (div_le_div_right (Real.Gamma_pos_of_pos hk)).mpr (lowerIncGamma_mono hk hxy)

lemma gammaincc_anti {k x y : ℝ} (hk : 0 < k) (hx : 0 < x) (hxy : x ≤ y) :
    gammaincc k y ≤ gammaincc k x := by
  have h1 := gammainc_add_gammaincc hk hx
  have h2 := gammainc_add_gammaincc hk (hx.trans_le hxy)
  have h3 := gammainc_mono hk hxy
  linarith

lemma exists_gammainc_eq {k p : ℝ} (hk : 0 < k) (hp0 : 0 < p) (hp1 : p < 1) :
    ∃ x, 0 < x ∧ gammainc k x = p := by
  have hG : 0 < Real.Gamma k := Real.Gamma_pos_of_pos hk
  obtain ⟨x, hx, hfx⟩ := exists_lowerIncGamma_eq hk (mul_pos hp0 hG)
    (mul_lt_of_lt_one_left hG hp1)
  exact ⟨x, hx, by rw [gammainc, hfx, mul_div_assoc, div_self hG.ne', mul_one]⟩

lemma exists_gammaincc_eq {k p : ℝ} (hk : 0 < k) (hp0 : 0 < p) (hp1 : p < 1) :
    ∃ x, 0 < x ∧ gammaincc k x = p := by
  obtain ⟨x, hx, hfx⟩ := exists_gammainc_eq hk (by linarith : (0:ℝ) < 1 - p) (by linarith)
  refine ⟨x, hx, ?_⟩
  have h := gammainc_add_gammaincc hk hx
  linarith

lemma gammaincinv_spec {k p : ℝ} (h : ∃ x, 0 < x ∧ gammainc k x = p) :
    0 < gammaincinv k p ∧ gammainc k (gammaincinv k p) = p := by
  unfold gammaincinv
  rw [dif_pos h]
  exact h.choose_spec

lemma gammainccinv_spec {k p : ℝ} (h : ∃ x, 0 < x ∧ gammaincc k x = p) :
    0 < gammainccinv k p ∧ gammaincc k (gammainccinv k p) = p := by
  unfold gammainccinv
  rw [dif_pos h]
  exact h.choose_spec

lemma sq_pos_of_ne {l : ℝ} (hl : l ≠ 0) : 0 < l ^ 2 :=
  lt_of_le_of_ne (sq_nonneg l) (Ne.symm (pow_ne_zero 2 hl))

lemma inv_sq_pos_of_ne {l : ℝ} (hl : l ≠ 0) : 0 < 1 / l ^ 2 :=
  one_div_pos.mpr (sq_pos_of_ne hl)

lemma upperIncGamma_one (t : ℝ) : upperIncGamma 1 t = Real.exp (-t) := by
  unfold upperIncGamma gammaIntegrand
  simp only [sub_self, Real.rpow_zero, mul_one]
  exact integral_exp_neg_Ioi t

/-- C1: for every parameter vector with lambda != 0 and every strictly positive
time t, the cumulative hazard computed by `_cumulative_hazard` through the
log-incomplete-gamma formulation equals the negated logarithm of the value
returned by `_survival_function`, on both the lambda > 0 and the lambda < 0
branch. -/
theorem C1_cumulative_hazard_eq_neg_log_survival (params : Params) (t : ℝ)
    (hl : params.lambda_ ≠ 0) (ht : 0 < t) :
    _cumulative_hazard params t = -Real.log (_survival_function params t) := by
  by_cases h : params.lambda_ > 0
  · simp only [_cumulative_hazard, _survival_function, gammainccln, gammaincln, if_pos h]
  · simp only [_cumulative_hazard, _survival_function, gammainccln, gammaincln, if_neg h]

theorem C1_witness :
    (1:ℝ) ≠ 0 ∧ (0:ℝ) < 1 ∧
      _cumulative_hazard ⟨0, 0, 1⟩ 1 = -Real.log (_survival_function ⟨0, 0, 1⟩ 1) :=
  ⟨one_ne_zero, one_pos,
    C1_cumulative_hazard_eq_neg_log_survival ⟨0, 0, 1⟩ 1 one_ne_zero one_pos⟩

/-- C2: for every parameter vector with lambda != 0 and every strictly positive
time t, `_survival_function` agrees with the spec's formula: with
sigma = exp(ln_sigma), Z = (log t - mu)/sigma and k = 1/lambda^2, it is the
upper regularized incomplete gamma of exp(lambda*Z - 2*log(lambda)) when
lambda > 0 and the lower one of exp(lambda*Z - 2*log(-lambda)) when lambda < 0. -/
theorem C2_survival_function_formula (params : Params) (t : ℝ)
    (hl : params.lambda_ ≠ 0) (ht : 0 < t) :
    _survival_function params t = survivalSpec params t := rfl

theorem C2_witness :
    (1:ℝ) ≠ 0 ∧ (0:ℝ) < 1 ∧ _survival_function ⟨0, 0, 1⟩ 1 = survivalSpec ⟨0, 0, 1⟩ 1 :=
  ⟨one_ne_zero, one_pos, C2_survival_function_formula ⟨0, 0, 1⟩ 1 one_ne_zero one_pos⟩

/-- C5: at the reference parameter vector (0, 0, 1), the survival function
reduces to the Exponential survival exp(-t) for every strictly positive t. -/
theorem C5_exponential_submodel (t : ℝ) (ht : 0 < t) :
    _survival_function ⟨0, 0, 1⟩ t = Real.exp (-t) := by
  have h1 : _survival_function ⟨0, 0, 1⟩ t = gammaincc 1 t := by
    simp only [_survival_function, safe_exp]
    norm_num
    rw [Real.exp_log ht]
  rw [h1, gammaincc, upperIncGamma_one, Real.Gamma_one, div_one]

theorem C5_witness :
    (0:ℝ) < 1 ∧ _survival_function ⟨0, 0, 1⟩ 1 = Real.exp (-1) :=
  ⟨one_pos, C5_exponential_submodel 1 one_pos⟩

/-- C4: for every parameter vector with lambda != 0 and every strictly positive
time t, exponentiating `_log_1m_sf` gives exactly 1 minus the survival
function: `_log_1m_sf` uses the incomplete-gamma tail opposite to the one
`_survival_function` uses, and the two regularized tails sum to 1. -/
theorem C4_log_1m_sf_complement (params : Params) (t : ℝ)
    (hl : params.lambda_ ≠ 0) (ht : 0 < t) :
    Real.exp (_log_1m_sf params t) = 1 - _survival_function params t := by
  have hk : 0 < 1 / params.lambda_ ^ 2 := inv_sq_pos_of_ne hl
  by_cases h : params.lambda_ > 0
  · simp only [_log_1m_sf, _survival_function, gammaincln, safe_exp, if_pos h]
    rw [Real.exp_log (gammainc_pos hk (Real.exp_pos _))]
    have hsum := gammainc_add_gammaincc hk
      (Real.exp_pos (params.lambda_ * ((Real.log t - params.mu_) / Real.exp params.ln_sigma_)
        - 2 * Real.log params.lambda_))
    linarith
  · simp only [_log_1m_sf, _survival_function, gammainccln, safe_exp, if_neg h]
    rw [Real.exp_log (gammaincc_pos hk (Real.exp_pos _))]
    have hsum := gammainc_add_gammaincc hk
      (Real.exp_pos (params.lambda_ * ((Real.log t - params.mu_) / Real.exp params.ln_sigma_)
        - 2 * Real.log (-params.lambda_)))
    linarith

theorem C4_witness :
    (1:ℝ) ≠ 0 ∧ (0:ℝ) < 1 ∧
      Real.exp (_log_1m_sf ⟨0, 0, 1⟩ 1) = 1 - _survival_function ⟨0, 0, 1⟩ 1 :=
  ⟨one_ne_zero, one_pos, C4_log_1m_sf_complement ⟨0, 0, 1⟩ 1 one_ne_zero one_pos⟩

/-- C8: for every censoring variant and time arrays, `_create_initial_point`
returns exactly the triple (mean(log_data), log(std(log_data)), 0.1), where
log_data is the spec's per-censoring-type selection: log(times) under
right-censoring, log of the upper array under left-censoring, log of the
elementwise difference upper - lower under interval-censoring; the result is a
deterministic function of the inputs. -/
theorem C8_initial_point (ct : CensoringType) (Ts0 Ts1 : List ℝ) :
    _create_initial_point ct Ts0 Ts1 =
      (listMean (specLogData ct Ts0 Ts1), Real.log (listStd (specLogData ct Ts0 Ts1)), 0.1) := by
  cases ct <;> rfl

theorem C9_counterexample :
    _fitted_parameter_names ≠ ["mu", "ln_sigma", "lambda"] := by decide

/-- C9 (amended): the static model contract is parameter names
["mu_", "ln_sigma_", "lambda_"] (each with a trailing underscore) in that fixed
order, bounds (None, None) three times, i.e. fully unconstrained, and reference
vector [0.0, 0.0, 1.0]. -/
theorem C9_static_contract :
    _fitted_parameter_names = ["mu_", "ln_sigma_", "lambda_"] ∧
      _bounds = [(none, none), (none, none), (none, none)] ∧
      _compare_to_values = [0.0, 0.0, 1.0] :=
  ⟨rfl, rfl, rfl⟩

/-- C6: for every parameter vector with lambda != 0, the survival function maps
every strictly positive time into [0, 1], and is non-increasing: for positive
times t1 <= t2 the survival at t2 is at most the survival at t1. -/
theorem C6_survival_bounds_and_monotone (params : Params) (hl : params.lambda_ ≠ 0) :
    (∀ t, 0 < t → _survival_function params t ∈ Icc (0:ℝ) 1) ∧
    (∀ t1 t2, 0 < t1 → t1 ≤ t2 →
      _survival_function params t2 ≤ _survival_function params t1) := by
  have hk : 0 < 1 / params.lambda_ ^ 2 := inv_sq_pos_of_ne hl
  have hσ : (0:ℝ) < Real.exp params.ln_sigma_ := Real.exp_pos _
  by_cases h : params.lambda_ > 0
  · have hs : ∀ t, _survival_function params t =
        gammaincc (1 / params.lambda_ ^ 2)
          (Real.exp (params.lambda_ * ((Real.log t - params.mu_) / Real.exp params.ln_sigma_)
            - 2 * Real.log params.lambda_)) := by
      intro t
      simp only [_survival_function, safe_exp, if_pos h]
    constructor
    · intro t ht
      rw [hs t]
      have hx : (0:ℝ) < Real.exp (params.lambda_ *
          ((Real.log t - params.mu_) / Real.exp params.ln_sigma_)
            - 2 * Real.log params.lambda_) := Real.exp_pos _
      refine ⟨gammaincc_nonneg hk hx, ?_⟩
      have h1 := gammainc_add_gammaincc hk hx
      have h2 := gammainc_nonneg (x := Real.exp (params.lambda_ *
        ((Real.log t - params.mu_) / Real.exp params.ln_sigma_)
          - 2 * Real.log params.lambda_)) hk
      linarith
    · intro t1 t2 ht1 h12
      rw [hs t1, hs t2]
      refine gammaincc_anti hk (Real.exp_pos _) (Real.exp_le_exp.mpr ?_)
      have hZ : (Real.log t1 - params.mu_) / Real.exp params.ln_sigma_
          ≤ (Real.log t2 - params.mu_) / Real.exp params.ln_sigma_ := by
        have hlog := Real.log_le_log ht1 h12
        gcongr
      have := mul_le_mul_of_nonneg_left hZ h.le
      linarith
  · have hneg : params.lambda_ < 0 := lt_of_le_of_ne (not_lt.mp h) hl
    have hs : ∀ t, _survival_function params t =
        gammainc (1 / params.lambda_ ^ 2)
          (Real.exp (params.lambda_ * ((Real.log t - params.mu_) / Real.exp params.ln_sigma_)
            - 2 * Real.log (-params.lambda_))) := by
      intro t
      simp only [_survival_function, safe_exp, if_neg h]
    constructor
    · intro t ht
      rw [hs t]
      exact ⟨gammainc_nonneg hk, (gammainc_lt_one hk (Real.exp_pos _)).le⟩
    · intro t1 t2 ht1 h12
      rw [hs t1, hs t2]
      refine gammainc_mono hk (Real.exp_le_exp.mpr ?_)
      have hZ : (Real.log t1 - params.mu_) / Real.exp params.ln_sigma_
          ≤ (Real.log t2 - params.mu_) / Real.exp params.ln_sigma_ := by
        have hlog := Real.log_le_log ht1 h12
        gcongr
      have := mul_le_mul_of_nonpos_left hZ hneg.le
      linarith

theorem C6_witness :
    (1:ℝ) ≠ 0 ∧
      ((0:ℝ) < 1 ∧ _survival_function ⟨0, 0, 1⟩ 1 ∈ Icc (0:ℝ) 1) ∧
      ((0:ℝ) < 1 ∧ (1:ℝ) ≤ 2 ∧
        _survival_function ⟨0, 0, 1⟩ 2 ≤ _survival_function ⟨0, 0, 1⟩ 1) :=
  ⟨one_ne_zero,
    ⟨one_pos, (C6_survival_bounds_and_monotone ⟨0, 0, 1⟩ one_ne_zero).1 1 one_pos⟩,
    ⟨one_pos, one_le_two,
      (C6_survival_bounds_and_monotone ⟨0, 0, 1⟩ one_ne_zero).2 1 2 one_pos one_le_two⟩⟩

/-- C3: round-trip inversion — for every parameter vector with lambda != 0 and
every survival probability p strictly between 0 and 1, the survival function
evaluated at `percentile p` returns exactly p: percentile is the inverse of the
survival function on (0, 1). -/
theorem C3_percentile_roundtrip (params : Params) (p : ℝ)
    (hl : params.lambda_ ≠ 0) (hp0 : 0 < p) (hp1 : p < 1) :
    _survival_function params (percentile params p) = p := by
  have hk : 0 < 1 / params.lambda_ ^ 2 := inv_sq_pos_of_ne hl
  have hsq : (0:ℝ) < params.lambda_ ^ 2 := sq_pos_of_ne hl
  have hσ : Real.exp params.ln_sigma_ ≠ 0 := (Real.exp_pos _).ne'
  by_cases h : params.lambda_ > 0
  · obtain ⟨hgpos, hgeq⟩ := gammainccinv_spec (exists_gammaincc_eq hk hp0 hp1)
    set g := gammainccinv (1 / params.lambda_ ^ 2) p with hgdef
    have hper : percentile params p =
        Real.exp (Real.exp params.ln_sigma_ * Real.log (g * params.lambda_ ^ 2) /
          params.lambda_) * Real.exp params.mu_ := by
      simp only [percentile, if_pos h]
    rw [hper]
    simp only [_survival_function, safe_exp, if_pos h]
    rw [← Real.exp_add, Real.log_exp]
    have harg : params.lambda_ *
        ((Real.exp params.ln_sigma_ * Real.log (g * params.lambda_ ^ 2) / params.lambda_ +
          params.mu_ - params.mu_) / Real.exp params.ln_sigma_) -
        2 * Real.log params.lambda_ = Real.log g := by
      rw [add_sub_cancel_right]
      have h1 : (Real.exp params.ln_sigma_ * Real.log (g * params.lambda_ ^ 2) /
          params.lambda_) / Real.exp params.ln_sigma_ =
          Real.log (g * params.lambda_ ^ 2) / params.lambda_ := by
        field_simp
        ring
      rw [h1, mul_div_assoc']
      rw [mul_div_cancel_left₀ _ hl]
      rw [Real.log_mul hgpos.ne' hsq.ne', Real.log_pow]
      push_cast
      ring
    rw [harg, Real.exp_log hgpos, hgeq]
  · obtain ⟨hgpos, hgeq⟩ := gammaincinv_spec (exists_gammainc_eq hk hp0 hp1)
    set g := gammaincinv (1 / params.lambda_ ^ 2) p with hgdef
    have hper : percentile params p =
        Real.exp (Real.exp params.ln_sigma_ * Real.log (g * params.lambda_ ^ 2) /
          params.lambda_) * Real.exp params.mu_ := by
      simp only [percentile, if_neg h]
    rw [hper]
    simp only [_survival_function, safe_exp, if_neg h]
    rw [← Real.exp_add, Real.log_exp]
    have hneg : params.lambda_ < 0 := lt_of_le_of_ne (not_lt.mp h) hl
    have harg : params.lambda_ *
        ((Real.exp params.ln_sigma_ * Real.log (g * params.lambda_ ^ 2) / params.lambda_ +
          params.mu_ - params.mu_) / Real.exp params.ln_sigma_) -
        2 * Real.log (-params.lambda_) = Real.log g := by
      rw [add_sub_cancel_right]
      have h1 : (Real.exp params.ln_sigma_ * Real.log (g * params.lambda_ ^ 2) /
          params.lambda_) / Real.exp params.ln_sigma_ =
          Real.log (g * params.lambda_ ^ 2) / params.lambda_ := by
        field_simp
        ring
      have h2 : params.lambda_ ^ 2 = (-params.lambda_) ^ 2 := (neg_sq params.lambda_).symm
      rw [h1, mul_div_assoc']
      rw [mul_div_cancel_left₀ _ hl]
      rw [Real.log_mul hgpos.ne' hsq.ne', h2, Real.log_pow]
      push_cast
      ring
    rw [harg, Real.exp_log hgpos, hgeq]

theorem C3_witness :
    (1:ℝ) ≠ 0 ∧ (0:ℝ) < 1/2 ∧ (1/2:ℝ) < 1 ∧
      _survival_function ⟨0, 0, 1⟩ (percentile ⟨0, 0, 1⟩ (1/2)) = 1/2 :=
  ⟨one_ne_zero, by norm_num, by norm_num,
    C3_percentile_roundtrip ⟨0, 0, 1⟩ (1/2) one_ne_zero (by norm_num) (by norm_num)⟩

/-- IEEE-754-style scalar value for modelling numpy float64 arithmetic: a
finite value with an exact real payload, the two infinities, or nan. Negative
zero is not distinguished from zero (numpy's log of either is -inf, which is
all the claims need) and finite overflow is not modelled (payloads are exact
reals). numpy's default error state warns and propagates these values; it
never raises. -/
inductive FloatVal
  | fin (x : ℝ)
  | posInf
  | negInf
  | nan

namespace FloatVal

/-- IEEE addition. -/
noncomputable def add : FloatVal → FloatVal → FloatVal
  | nan, _ => nan
  | _, nan => nan
  | fin x, fin y => fin (x + y)
  | fin _, posInf => posInf
  | fin _, negInf => negInf
  | posInf, fin _ => posInf
  | posInf, posInf => posInf
  | posInf, negInf => nan
  | negInf, fin _ => negInf
  | negInf, posInf => nan
  | negInf, negInf => negInf

/-- IEEE negation. -/
noncomputable def neg : FloatVal → FloatVal
  | nan => nan
  | posInf => negInf
  | negInf => posInf
  | fin x => fin (-x)

/-- IEEE subtraction. -/
noncomputable def sub : FloatVal → FloatVal → FloatVal
  | nan, _ => nan
  | _, nan => nan
  | fin x, fin y => fin (x - y)
  | fin _, posInf => negInf
  | fin _, negInf => posInf
  | posInf, fin _ => posInf
  | posInf, posInf => nan
  | posInf, negInf => posInf
  | negInf, fin _ => negInf
  | negInf, posInf => negInf
  | negInf, negInf => nan

/-- IEEE multiplication: zero times infinity is nan. -/
noncomputable def mul : FloatVal → FloatVal → FloatVal
  | nan, _ => nan
  | _, nan => nan
  | fin x, fin y => fin (x * y)
  | fin x, posInf => if 0 < x then posInf else if x < 0 then negInf else nan
  | fin x, negInf => if 0 < x then negInf else if x < 0 then posInf else nan
  | posInf, fin y => if 0 < y then posInf else if y < 0 then negInf else nan
  | negInf, fin y => if 0 < y then negInf else if y < 0 then posInf else nan
  | posInf, posInf => posInf
  | posInf, negInf => negInf
  | negInf, posInf => negInf
  | negInf, negInf => posInf

/-- IEEE division (without signed zero): a nonzero finite value divided by
zero is a signed infinity — numpy emits a RuntimeWarning but does not raise —
and zero divided by zero is nan. -/
noncomputable def div : FloatVal → FloatVal → FloatVal
  | nan, _ => nan
  | _, nan => nan
  | fin x, fin y =>
      if y = 0 then (if x = 0 then nan else if 0 < x then posInf else negInf)
      else fin (x / y)
  | fin _, posInf => fin 0
  | fin _, negInf => fin 0
  | posInf, fin y => if 0 ≤ y then posInf else negInf
  | negInf, fin y => if 0 ≤ y then negInf else posInf
  | posInf, _ => nan
  | negInf, _ => nan

noncomputable instance : Add FloatVal := ⟨add⟩
noncomputable instance : Sub FloatVal := ⟨sub⟩
noncomputable instance : Mul FloatVal := ⟨mul⟩
noncomputable instance : Div FloatVal := ⟨div⟩
noncomputable instance : Neg FloatVal := ⟨neg⟩

/-- numpy `log`: log of zero is -inf (with a warning, not an exception), log
of a negative value is nan. -/
noncomputable def log : FloatVal → FloatVal
  | nan => nan
  | posInf => posInf
  | negInf => nan
  | fin x => if 0 < x then fin (Real.log x) else if x = 0 then negInf else nan

/-- numpy `exp`. -/
noncomputable def exp : FloatVal → FloatVal
  | nan => nan
  | posInf => posInf
  | negInf => fin 0
  | fin x => fin (Real.exp x)

/-- numpy `** 2`. -/
noncomputable def sq : FloatVal → FloatVal
  | nan => nan
  | fin x => fin (x ^ 2)
  | _ => posInf

/-- The float comparison `> 0` used by the branch dispatch: false on nan. -/
noncomputable def gt0 : FloatVal → Bool
  | fin x => decide (0 < x)
  | posInf => true
  | _ => false

/-- True exactly on finite values. -/
def isFinite : FloatVal → Prop
  | fin _ => True
  | _ => False

/-- Modelled from the spec: the clipping bound of the bounded exponential (the
log of the largest double, ≈709.78; its exact value is irrelevant to the
claims, 709 is used). -/
noncomputable def safeExpBound : ℝ := 709

/-- Modelled from the spec: float-level `safe_exp` from
`lifelines.utils.safe_exp` (absent from src) — "clamp exponent to a safe range
before exponentiating", so the result is always finite (or nan for nan). -/
noncomputable def safeExp : FloatVal → FloatVal
  | nan => nan
  | posInf => fin (Real.exp safeExpBound)
  | negInf => fin (Real.exp (-safeExpBound))
  | fin x => fin (Real.exp (max (-safeExpBound) (min safeExpBound x)))

/-- Modelled from the spec: float-level regularized lower incomplete gamma
(`autograd_gamma.gammainc`, absent from src): defined for finite positive
shape and finite nonnegative argument (value 1 at argument +inf); any other
input — including the infinite shape produced by `1/lambda**2` at
`lambda = 0` — yields nan, the spec's propagate-don't-raise policy for
invalid numerics. -/
noncomputable def gammaincF : FloatVal → FloatVal → FloatVal
  | fin k, fin x => if 0 < k ∧ 0 ≤ x then fin (gammainc k x) else nan
  | fin k, posInf => if 0 < k then fin 1 else nan
  | _, _ => nan

/-- Modelled from the spec: float-level regularized upper incomplete gamma
(`autograd_gamma.gammaincc`, absent from src); see `gammaincF`. -/
noncomputable def gammainccF : FloatVal → FloatVal → FloatVal
  | fin k, fin x => if 0 < k ∧ 0 ≤ x then fin (gammaincc k x) else nan
  | fin k, posInf => if 0 < k then fin 0 else nan
  | _, _ => nan

/-- Modelled from the spec: float-level `gammaincln` (log of `gammaincF`). -/
noncomputable def gammainclnF (k x : FloatVal) : FloatVal := (gammaincF k x).log

/-- Modelled from the spec: float-level `gammainccln` (log of `gammainccF`). -/
noncomputable def gammaincclnF (k x : FloatVal) : FloatVal := (gammainccF k x).log

/-- Modelled from the spec: float-level `gammaln`, the log-Gamma function;
log-Gamma of +inf is +inf, of a non-positive or non-finite shape nan (only
positive shapes `1/lambda^2` reach it). -/
noncomputable def gammalnF : FloatVal → FloatVal
  | fin k => if 0 < k then fin (Real.log (Real.Gamma k)) else nan
  | posInf => posInf
  | _ => nan

/-- Modelled from the spec: float-level `scipy.special.gammaincinv` — "the
inverse-incomplete-gamma calls fail or return nan for p outside (0,1)"; a
non-finite shape likewise yields nan. -/
noncomputable def gammaincinvF : FloatVal → FloatVal → FloatVal
  | fin k, fin p => if 0 < k ∧ 0 < p ∧ p < 1 then fin (gammaincinv k p) else nan
  | _, _ => nan

/-- Modelled from the spec: float-level `scipy.special.gammainccinv`; see
`gammaincinvF`. -/
noncomputable def gammainccinvF : FloatVal → FloatVal → FloatVal
  | fin k, fin p => if 0 < k ∧ 0 < p ∧ p < 1 then fin (gammainccinv k p) else nan
  | _, _ => nan

@[simp] lemma fin_add_fin (x y : ℝ) : fin x + fin y = fin (x + y) := rfl

@[simp] lemma negInf_add_posInf : negInf + posInf = nan := rfl

@[simp] lemma nan_add (v : FloatVal) : nan + v = nan := by cases v <;> rfl

@[simp] lemma fin_sub_fin (x y : ℝ) : fin x - fin y = fin (x - y) := rfl

@[simp] lemma fin_sub_negInf (x : ℝ) : fin x - negInf = posInf := rfl

@[simp] lemma negInf_sub_fin (y : ℝ) : negInf - fin y = negInf := rfl

@[simp] lemma negInf_sub_posInf : negInf - posInf = negInf := rfl

@[simp] lemma nan_sub (v : FloatVal) : nan - v = nan := by cases v <;> rfl

@[simp] lemma fin_mul_fin (x y : ℝ) : fin x * fin y = fin (x * y) := rfl

@[simp] lemma fin_mul_negInf (x : ℝ) :
    fin x * negInf = if 0 < x then negInf else if x < 0 then posInf else nan := rfl

@[simp] lemma posInf_mul_posInf : posInf * posInf = posInf := rfl

@[simp] lemma nan_mul (v : FloatVal) : nan * v = nan := by cases v <;> rfl

@[simp] lemma fin_mul_nan (x : ℝ) : fin x * nan = nan := rfl

@[simp] lemma div_fin_fin (x y : ℝ) :
    fin x / fin y =
      if y = 0 then (if x = 0 then nan else if 0 < x then posInf else negInf)
      else fin (x / y) := rfl

@[simp] lemma nan_div (v : FloatVal) : nan / v = nan := by cases v <;> rfl

@[simp] lemma neg_fin (x : ℝ) : -(fin x) = fin (-x) := rfl

@[simp] lemma neg_nan : -(nan : FloatVal) = nan := rfl

@[simp] lemma log_fin (x : ℝ) :
    log (fin x) = if 0 < x then fin (Real.log x) else if x = 0 then negInf else nan := rfl

@[simp] lemma log_nan : log nan = nan := rfl

@[simp] lemma exp_fin (x : ℝ) : exp (fin x) = fin (Real.exp x) := rfl

@[simp] lemma exp_nan : exp nan = nan := rfl

@[simp] lemma sq_fin (x : ℝ) : (fin x).sq = fin (x ^ 2) := rfl

@[simp] lemma gt0_fin (x : ℝ) : (fin x).gt0 = decide (0 < x) := rfl

@[simp] lemma safeExp_fin (x : ℝ) :
    safeExp (fin x) = fin (Real.exp (max (-safeExpBound) (min safeExpBound x))) := rfl

@[simp] lemma safeExp_posInf : safeExp posInf = fin (Real.exp safeExpBound) := rfl

@[simp] lemma gammaincF_posInf (z : FloatVal) : gammaincF posInf z = nan := rfl

@[simp] lemma gammainccF_posInf (z : FloatVal) : gammainccF posInf z = nan := rfl

@[simp] lemma gammainclnF_posInf (z : FloatVal) : gammainclnF posInf z = nan := rfl

@[simp] lemma gammaincclnF_posInf (z : FloatVal) : gammaincclnF posInf z = nan := rfl

@[simp] lemma gammalnF_posInf : gammalnF posInf = posInf := rfl

@[simp] lemma gammaincinvF_posInf (z : FloatVal) : gammaincinvF posInf z = nan := rfl

@[simp] lemma gammainccinvF_posInf (z : FloatVal) : gammainccinvF posInf z = nan := rfl

end FloatVal

/-- Float-level parameter vector. -/
structure ParamsF where
  mu_ : FloatVal
  ln_sigma_ : FloatVal
  lambda_ : FloatVal

/-- Float-level embedding of `GeneralizedGammaFitter._survival_function`,
mirroring the numpy semantics of the source line by line. -/
noncomputable def _survival_functionF (params : ParamsF) (times : FloatVal) : FloatVal :=
  let sigma_ := FloatVal.safeExp params.ln_sigma_
  let Z := (FloatVal.log times - params.mu_) / sigma_
  if (params.lambda_).gt0 then
    FloatVal.gammainccF (FloatVal.fin 1 / params.lambda_.sq)
      (FloatVal.safeExp (params.lambda_ * Z - FloatVal.fin 2 * FloatVal.log params.lambda_))
  else
    FloatVal.gammaincF (FloatVal.fin 1 / params.lambda_.sq)
      (FloatVal.safeExp (params.lambda_ * Z - FloatVal.fin 2 * FloatVal.log (-params.lambda_)))

/-- Float-level embedding of `GeneralizedGammaFitter._cumulative_hazard`. -/
noncomputable def _cumulative_hazardF (params : ParamsF) (times : FloatVal) : FloatVal :=
  let sigma_ := FloatVal.safeExp params.ln_sigma_
  let Z := (FloatVal.log times - params.mu_) / sigma_
  let ilambda_2 := FloatVal.fin 1 / params.lambda_.sq
  if (params.lambda_).gt0 then
    -(FloatVal.gammaincclnF ilambda_2
        (FloatVal.safeExp (params.lambda_ * Z - FloatVal.fin 2 * FloatVal.log params.lambda_)))
  else
    -(FloatVal.gammainclnF ilambda_2
        (FloatVal.safeExp (params.lambda_ * Z - FloatVal.fin 2 * FloatVal.log (-params.lambda_))))

/-- Float-level embedding of `GeneralizedGammaFitter._log_1m_sf`. -/
noncomputable def _log_1m_sfF (params : ParamsF) (times : FloatVal) : FloatVal :=
  let sigma_ := FloatVal.safeExp params.ln_sigma_
  let Z := (FloatVal.log times - params.mu_) / sigma_
  if (params.lambda_).gt0 then
    FloatVal.gammainclnF (FloatVal.fin 1 / params.lambda_.sq)
      (FloatVal.safeExp (params.lambda_ * Z - FloatVal.fin 2 * FloatVal.log params.lambda_))
  else
    FloatVal.gammaincclnF (FloatVal.fin 1 / params.lambda_.sq)
      (FloatVal.safeExp (params.lambda_ * Z - FloatVal.fin 2 * FloatVal.log (-params.lambda_)))

/-- Float-level embedding of `GeneralizedGammaFitter._log_hazard`. -/
noncomputable def _log_hazardF (params : ParamsF) (times : FloatVal) : FloatVal :=
  let ilambda_2 := FloatVal.fin 1 / params.lambda_.sq
  let Z := (FloatVal.log times - params.mu_) / FloatVal.safeExp params.ln_sigma_
  if (params.lambda_).gt0 then
    FloatVal.log params.lambda_ - FloatVal.log times - params.ln_sigma_ -
        FloatVal.gammalnF ilambda_2 +
      (params.lambda_ * Z - FloatVal.safeExp (params.lambda_ * Z) -
          FloatVal.fin 2 * FloatVal.log params.lambda_) * ilambda_2 -
      FloatVal.gammaincclnF ilambda_2
        (FloatVal.safeExp (params.lambda_ * Z - FloatVal.fin 2 * FloatVal.log params.lambda_))
  else
    FloatVal.log (-params.lambda_) - FloatVal.log times - params.ln_sigma_ -
        FloatVal.gammalnF ilambda_2 +
      (params.lambda_ * Z - FloatVal.safeExp (params.lambda_ * Z) -
          FloatVal.fin 2 * FloatVal.log (-params.lambda_)) * ilambda_2 -
      FloatVal.gammainclnF ilambda_2
        (FloatVal.safeExp (params.lambda_ * Z - FloatVal.fin 2 * FloatVal.log (-params.lambda_)))

/-- Float-level embedding of `GeneralizedGammaFitter.percentile`. -/
noncomputable def percentileF (params : ParamsF) (p : FloatVal) : FloatVal :=
  let lambda_ := params.lambda_
  let sigma_ := FloatVal.exp params.ln_sigma_
  if lambda_.gt0 then
    FloatVal.exp (sigma_ *
        FloatVal.log (FloatVal.gammainccinvF (FloatVal.fin 1 / lambda_.sq) p * lambda_.sq) /
        lambda_) *
      FloatVal.exp params.mu_
  else
    FloatVal.exp (sigma_ *
        FloatVal.log (FloatVal.gammaincinvF (FloatVal.fin 1 / lambda_.sq) p * lambda_.sq) /
        lambda_) *
      FloatVal.exp params.mu_

theorem C7_counterexample :
    percentileF ⟨.fin 0, .fin 0, .fin 0⟩ (.fin (1/2)) = .nan ∧
      ¬ (percentileF ⟨.fin 0, .fin 0, .fin 0⟩ (.fin (1/2))).isFinite := by
  have h : percentileF ⟨.fin 0, .fin 0, .fin 0⟩ (.fin (1/2)) = .nan := by
    simp [percentileF, FloatVal.gt0]
  exact ⟨h, by rw [h]; exact not_false⟩

/-- C7 (amended): calling percentile with lambda exactly zero does not raise:
the division `1 / lambda ** 2` silently produces infinity (numpy warns but
does not raise), the inverse-incomplete-gamma call on the infinite shape
produces nan, and the call returns the non-finite value nan for every finite
mu, ln_sigma and p. -/
theorem C7_percentile_lambda_zero_nan (m s pv : ℝ) :
    percentileF ⟨.fin m, .fin s, .fin 0⟩ (.fin pv) = .nan := by
  simp [percentileF, FloatVal.gt0]

/-- C10: a parameter vector with lambda exactly 0 is routed by the
unconditional else of the `lambda > 0` dispatch (boundary lambda <= 0) to the
negative-lambda formula in each of the four evaluators, which there evaluates
`1/lambda**2` (infinity) and `log(-lambda)` (-infinity), and every such call
returns the non-finite value nan rather than raising an error. -/
theorem C10_lambda_zero_dispatch (m s tv : ℝ) (ht : 0 < tv) :
    _survival_functionF ⟨.fin m, .fin s, .fin 0⟩ (.fin tv) = .nan ∧
      _cumulative_hazardF ⟨.fin m, .fin s, .fin 0⟩ (.fin tv) = .nan ∧
      _log_1m_sfF ⟨.fin m, .fin s, .fin 0⟩ (.fin tv) = .nan ∧
      _log_hazardF ⟨.fin m, .fin s, .fin 0⟩ (.fin tv) = .nan := by
  refine ⟨?_, ?_, ?_, ?_⟩ <;>
    simp [_survival_functionF, _cumulative_hazardF, _log_1m_sfF, _log_hazardF,
      FloatVal.gt0, ht, Real.exp_ne_zero, FloatVal.safeExpBound,
      show min (709:ℝ) 0 = 0 by norm_num, show max (-(709:ℝ)) 0 = 0 by norm_num,
      show (0:ℝ) < 2 by norm_num]

theorem C10_witness :
    (0:ℝ) < 1 ∧
      (_survival_functionF ⟨.fin 0, .fin 0, .fin 0⟩ (.fin 1) = .nan ∧
        _cumulative_hazardF ⟨.fin 0, .fin 0, .fin 0⟩ (.fin 1) = .nan ∧
        _log_1m_sfF ⟨.fin 0, .fin 0, .fin 0⟩ (.fin 1) = .nan ∧
        _log_hazardF ⟨.fin 0, .fin 0, .fin 0⟩ (.fin 1) = .nan) :=
  ⟨one_pos, C10_lambda_zero_dispatch 0 0 1 one_pos⟩
